import Mathlib

/-!
Verification development for the `just-binary` shell interpreter.

The definitions below are shallow embeddings of the TypeScript sources:
byte buffers (`Uint8Array`) become `List Nat` (each entry a byte value),
JavaScript strings become `List Char` or Lean `String`, thrown control-flow
errors become an explicit `Except`-style sum, and mutation of the
interpreter state becomes explicit state passing.
-/

namespace JustBinary

/-- Byte buffers (`Uint8Array`) are modelled as lists of byte values. -/
abbrev Bytes := List Nat

/-- `src/utils/bytes.ts` `EMPTY`: the empty byte array. -/
def EMPTY : Bytes := []

/-- `src/utils/bytes.ts` `concat`: concatenation of two byte arrays (the
source's empty-array fast paths return the same value). -/
def concat (a b : Bytes) : Bytes := a ++ b

/-- UTF-8 encoding of a single Unicode scalar value, written with division
and remainder (`n / 64`, `n % 64`, ...) in place of the usual shifts. -/
def utf8EncodeChar (c : Char) : List Nat :=
  let n := c.toNat
  if n < 0x80 then [n]
  else if n < 0x800 then [0xC0 + n / 64, 0x80 + n % 64]
  else if n < 0x10000 then [0xE0 + n / 4096, 0x80 + n / 64 % 64, 0x80 + n % 64]
  else [0xF0 + n / 262144, 0x80 + n / 4096 % 64, 0x80 + n / 64 % 64, 0x80 + n % 64]

/-- `src/utils/bytes.ts` `encode`: encode a string to UTF-8 bytes
(`TextEncoder.encode`).  Strings are modelled as sequences of Unicode
scalar values (`List Char`). -/
def utf8Encode (s : List Char) : List Nat := (s.map utf8EncodeChar).flatten

/-- `encode` applied to a Lean `String`. -/
def encodeStr (s : String) : Bytes := utf8Encode s.toList

/-- The Unicode replacement character U+FFFD emitted by `TextDecoder` for
invalid input. -/
def replChar : Char := Char.ofNat 0xFFFD

/-- A UTF-8 continuation byte (`0x80`-`0xBF`). -/
def isCont (b : Nat) : Bool := 0x80 ≤ b && b ≤ 0xBF

/-- One step of the UTF-8 decoder: decode the first scalar value of a
nonempty byte stream (following the WHATWG byte-range table: 2-byte leads
`C2`-`DF`, 3-byte leads `E0`-`EF` with the `E0`/`ED` second-byte
restrictions excluding overlong forms and surrogates, 4-byte leads
`F0`-`F4` with the `F0`/`F4` restrictions) and return it with the
remaining bytes; an invalid sequence yields one replacement character
(the source decoder's error recovery is approximated; valid UTF-8 is
decoded exactly). -/
def utf8DecodeStep : List Nat → Option (Char × List Nat)
  | [] => none
  | b :: bs =>
    if b < 0x80 then some (Char.ofNat b, bs)
    else if b < 0xC2 then some (replChar, bs)
    else if b < 0xE0 then
      match bs with
      | b2 :: bs2 =>
        if isCont b2 then some (Char.ofNat ((b - 0xC0) * 64 + (b2 - 0x80)), bs2)
        else some (replChar, bs)
      | [] => some (replChar, [])
    else if b < 0xF0 then
      match bs with
      | b2 :: b3 :: bs3 =>
        if (if b = 0xE0 then 0xA0 else 0x80) ≤ b2 ∧ b2 ≤ (if b = 0xED then 0x9F else 0xBF) ∧
            isCont b3 = true then
          some (Char.ofNat ((b - 0xE0) * 4096 + (b2 - 0x80) * 64 + (b3 - 0x80)), bs3)
        else some (replChar, bs)
      | _ => some (replChar, [])
    else if b < 0xF5 then
      match bs with
      | b2 :: b3 :: b4 :: bs4 =>
        if (if b = 0xF0 then 0x90 else 0x80) ≤ b2 ∧ b2 ≤ (if b = 0xF4 then 0x8F else 0xBF) ∧
            isCont b3 = true ∧ isCont b4 = true then
          some (Char.ofNat ((b - 0xF0) * 262144 + (b2 - 0x80) * 4096 + (b3 - 0x80) * 64 +
            (b4 - 0x80)), bs4)
        else some (replChar, bs)
      | _ => some (replChar, [])
    else some (replChar, bs)

/-- The decode loop, with fuel bounding the number of decoded characters.
Each step consumes at least one byte, so fuel `l.length` always suffices
(`utf8DecodeGo_fuel` below). -/
def utf8DecodeGo : Nat → List Nat → List Char
  | 0, _ => []
  | fuel + 1, l =>
    match utf8DecodeStep l with
    | none => []
    | some p => p.1 :: utf8DecodeGo fuel p.2

/-- `src/utils/bytes.ts` `decode`: decode UTF-8 bytes to a string
(`TextDecoder.decode` with the default UTF-8 decoder): repeatedly decode
the leading scalar value. -/
def utf8Decode (l : List Nat) : List Char := utf8DecodeGo l.length l

/-- `decode` producing a Lean `String`. -/
def decodeStr (b : Bytes) : String := String.mk (utf8Decode b)

/-- `src/utils/bytes.ts` `trimTrailingNewlines`: remove trailing newline
bytes (`0x0A`) from the end.  The source scans `end` backwards past the
trailing `0x0A` bytes and returns `bytes.subarray(0, end)`; on lists this
is dropping the leading run of `0x0A` from the reversed list. -/
def trimTrailingNewlines (bytes : Bytes) : Bytes :=
  (bytes.reverse.dropWhile (fun b => b = 0x0a)).reverse

/-- `src/utils/bytes.ts` `encodeLatin1`: charCode to byte, 1:1 (the
source's `& 0xff` is written as `% 256`). -/
def encodeLatin1 (s : List Char) : List Nat :=
  s.map (fun c => c.toNat % 256)

/-- `src/utils/bytes.ts` `encodeMixed`: encode a mixed string containing
raw byte values (code units `0x00`-`0xFF`) and true Unicode characters.
The source's fast path Latin-1-encodes when every code unit is at most
`0xFF`; otherwise it emits every char `≤ 0xFF` as a single raw byte and
UTF-8-encodes maximal segments of higher characters (surrogate pairs are
kept together).  In the scalar-value model the segmentwise UTF-8 encoding
equals the concatenation of the per-character encodings, which is how the
slow path is written here. -/
def encodeMixed (s : List Char) : List Nat :=
  if s.all (fun c => c.toNat ≤ 0xff) then encodeLatin1 s
  else (s.map (fun c => if c.toNat ≤ 0xff then [c.toNat % 256] else utf8EncodeChar c)).flatten

/-- `src/types.ts` `ExecResult`: accumulated stdout, stderr and exit code. -/
structure ExecResult where
  stdout : Bytes
  stderr : Bytes
  exitCode : Int
deriving DecidableEq, Repr

/-- `src/interpreter/errors.ts` `ExecutionLimitError.limitType`. -/
inductive LimitType
  | recursion
  | commands
  | iterations
  | string_length
  | glob_operations
  | substitution_depth
deriving DecidableEq, Repr

/-- Errors thrown during statement execution (`src/interpreter/errors.ts`).
The seven classes that `executeStatements` re-throws are modelled with
their carried fields; `otherError` stands for any other thrown value (a
plain JS error, or a control-flow error outside those seven classes),
of which only an error message is observed. -/
inductive ShellError
  | breakError (levels : Nat) (stdout stderr : Bytes)
  | continueError (levels : Nat) (stdout stderr : Bytes)
  | returnError (exitCode : Int) (stdout stderr : Bytes)
  | errexitError (exitCode : Int) (stdout stderr : Bytes)
  | exitError (exitCode : Int) (stdout stderr : Bytes)
  | executionLimitError (message : String) (limitType : LimitType) (stdout stderr : Bytes)
  | subshellExitError (stdout stderr : Bytes)
  | otherError (message : String)
deriving DecidableEq, Repr

/-- `ControlFlowError.prependOutput`: prepend output from the current
context before re-throwing.  Never invoked on `otherError` (a non-
control-flow value has no such method), where it is the identity. -/
def prependOutput : ShellError → Bytes → Bytes → ShellError
  | .breakError l so se, out, err => .breakError l (concat out so) (concat err se)
  | .continueError l so se, out, err => .continueError l (concat out so) (concat err se)
  | .returnError c so se, out, err => .returnError c (concat out so) (concat err se)
  | .errexitError c so se, out, err => .errexitError c (concat out so) (concat err se)
  | .exitError c so se, out, err => .exitError c (concat out so) (concat err se)
  | .executionLimitError m t so se, out, err =>
      .executionLimitError m t (concat out so) (concat err se)
  | .subshellExitError so se, out, err => .subshellExitError (concat out so) (concat err se)
  | .otherError m, _, _ => .otherError m

/-- `src/interpreter/errors.ts` `isScopeExitError`: break, continue or
return. -/
def isScopeExitError : ShellError → Bool
  | .breakError _ _ _ => true
  | .continueError _ _ _ => true
  | .returnError _ _ _ => true
  | _ => false

/-- `error instanceof ErrexitError`. -/
def isErrexitError : ShellError → Bool
  | .errexitError _ _ _ => true
  | _ => false

/-- `error instanceof ExitError`. -/
def isExitError : ShellError → Bool
  | .exitError _ _ _ => true
  | _ => false

/-- `error instanceof ExecutionLimitError`. -/
def isExecutionLimitError : ShellError → Bool
  | .executionLimitError _ _ _ _ => true
  | _ => false

/-- `error instanceof SubshellExitError`. -/
def isSubshellExitError : ShellError → Bool
  | .subshellExitError _ _ => true
  | _ => false

/-- Modelled from the spec: `getErrorMessage`
(`src/interpreter/helpers/errors.ts` is not among the provided sources;
only its import sites are).  Per the spec, "any truly unexpected error
(e.g., an internal assertion) becomes `\"bash: internal error: ...\n\"`",
so the message of a generic thrown value is formatted with that prefix.
It is only ever applied to non-re-thrown errors in this development. -/
def getErrorMessage : ShellError → String
  | .otherError msg => "bash: internal error: " ++ msg
  | _ => ""

/-- Execution of one statement (`ctx.executeStatement`): it may mutate the
interpreter state (abstract type `σ`) and either return an `ExecResult` or
throw a `ShellError`. -/
abbrev StmtExec (Stmt σ : Type) := Stmt → σ → σ × Except ShellError ExecResult

/-- The statement loop of `src/interpreter/helpers/statements.ts`
`executeStatements`: execute statements in order, accumulating stdout and
stderr and keeping the last exit code.  A thrown scope-exit, errexit,
exit, execution-limit or subshell-exit error gets the accumulated output
prepended and is re-thrown; any other thrown value is swallowed into a
normal result with exit code 1 and the formatted message appended to the
accumulated stderr. -/
def executeStatementsLoop (exec : StmtExec Stmt σ) :
    List Stmt → σ → Bytes → Bytes → Int → σ × Except ShellError ExecResult
  | [], st, stdout, stderr, exitCode => (st, .ok ⟨stdout, stderr, exitCode⟩)
  | stmt :: rest, st, stdout, stderr, _ =>
    match exec stmt st with
    | (st', .ok result) =>
        executeStatementsLoop exec rest st' (concat stdout result.stdout)
          (concat stderr result.stderr) result.exitCode
    | (st', .error error) =>
        if isScopeExitError error || isErrexitError error || isExitError error ||
            isExecutionLimitError error || isSubshellExitError error then
          (st', .error (prependOutput error stdout stderr))
        else
          (st', .ok ⟨stdout, concat stderr (encodeStr (getErrorMessage error ++ "\n")), 1⟩)

/-- `executeStatements(ctx, statements, initialStdout, initialStderr)`. -/
def executeStatements (exec : StmtExec Stmt σ) (statements : List Stmt) (st : σ)
    (initialStdout initialStderr : Bytes) : σ × Except ShellError ExecResult :=
  executeStatementsLoop exec statements st initialStdout initialStderr 0

/-- The trace of a run in which every statement returns normally: the list
of per-statement results together with the final state, or `none` as soon
as some statement throws.  Used to state properties of the loops above. -/
def execTrace (exec : StmtExec Stmt σ) : List Stmt → σ → Option (List ExecResult × σ)
  | [], st => some ([], st)
  | stmt :: rest, st =>
    match exec stmt st with
    | (st', .ok r) => (execTrace exec rest st').map (fun p => (r :: p.1, p.2))
    | (_, .error _) => none

/-- Interpreter state as seen by `executeCondition`: the `inCondition`
flag plus the rest of the state (abstract type `σ`). -/
structure IState (σ : Type) where
  inCondition : Bool
  rest : σ
deriving DecidableEq, Repr

/-- The statement loop of `src/interpreter/helpers/condition.ts`: execute
condition statements in order, accumulating output and keeping the last
exit code; a thrown error propagates (the `finally` restore is applied by
`executeCondition` around this loop). -/
def executeConditionLoop (exec : StmtExec Stmt (IState σ)) :
    List Stmt → IState σ → Bytes → Bytes → Int → IState σ × Except ShellError ExecResult
  | [], st, stdout, stderr, exitCode => (st, .ok ⟨stdout, stderr, exitCode⟩)
  | stmt :: rest, st, stdout, stderr, _ =>
    match exec stmt st with
    | (st', .ok result) =>
        executeConditionLoop exec rest st' (concat stdout result.stdout)
          (concat stderr result.stderr) result.exitCode
    | (st', .error e) => (st', .error e)

/-- `src/interpreter/helpers/condition.ts` `executeCondition`: save
`state.inCondition`, set it to `true`, run the condition statements, and
restore the saved value on every exit path (the `try/finally`); the thrown
error, if any, propagates unchanged. -/
def executeCondition (exec : StmtExec Stmt (IState σ)) (statements : List Stmt)
    (st : IState σ) : IState σ × Except ShellError ExecResult :=
  let savedInCondition := st.inCondition
  let p := executeConditionLoop exec statements { st with inCondition := true } EMPTY EMPTY 0
  ({ p.1 with inCondition := savedInCondition }, p.2)

/-- `ExecutionLimitError.EXIT_CODE`: exit code 126 indicates a limit was
exceeded. -/
def ExecutionLimitError.EXIT_CODE : Int := 126

/-- The `ExecutionLimitError` constructor: stores message, limit type and
the accumulated stdout; the stored stderr is the given stderr when it is
nonempty, and otherwise the formatted message `bash: <message>\n`. -/
def mkExecutionLimitError (message : String) (limitType : LimitType)
    (stdout stderr : Bytes) : ShellError :=
  .executionLimitError message limitType stdout
    (if stderr.length > 0 then stderr else encodeStr ("bash: " ++ message ++ "\n"))

/-- `src/interpreter/helpers/result.ts` `throwExecutionLimit`: throw an
`ExecutionLimitError` built from the given message, limit type and
accumulated output.  Throwing is modelled by returning `Except.error`;
the function never produces `Except.ok`. -/
def throwExecutionLimit (message : String) (limitType : LimitType)
    (stdout stderr : Bytes) : Except ShellError ExecResult :=
  .error (mkExecutionLimitError message limitType stdout stderr)

/-- `src/interpreter/helpers/result.ts` `failure`: a failure result with
an encoded stderr message. -/
def failure (stderr : String) (exitCode : Int) : ExecResult :=
  ⟨EMPTY, encodeStr stderr, exitCode⟩

/-- JavaScript strings handled by the `getopts` builtin are modelled as
sequences of characters. -/
abbrev JStr := List Char

/-- The environment `Map<string, Uint8Array>`.  The builtin reads and
writes it only through `envGet`/`envSet`, which decode/encode values as
strings, so values are modelled as strings directly; the most recent
binding comes first. -/
abbrev Env := List (JStr × JStr)

/-- `Map.get`. -/
def envLookup : Env → JStr → Option JStr
  | [], _ => none
  | (k, v) :: rest, key => if k = key then some v else envLookup rest key

/-- `src/utils/bytes.ts` `envGet`: get an env value, or the fallback. -/
def envGet (env : Env) (key fallback : JStr) : JStr :=
  match envLookup env key with
  | some v => v
  | none => fallback

/-- `src/utils/bytes.ts` `envSet`: set an env value. -/
def envSet (env : Env) (key value : JStr) : Env := (key, value) :: env

/-- Whitespace trimmed by `Number.parseInt`. -/
def jsWhitespaceChar (c : Char) : Bool :=
  c == ' ' || c == '\t' || c == '\n' || c == '\r' || c == Char.ofNat 0x0B ||
  c == Char.ofNat 0x0C || c == Char.ofNat 0xA0 || c == Char.ofNat 0xFEFF ||
  c == Char.ofNat 0x2028 || c == Char.ofNat 0x2029

/-- Value of a nonempty run of decimal digits. -/
def digitsVal (ds : List Char) : Nat :=
  ds.foldl (fun acc c => acc * 10 + (c.toNat - 48)) 0

/-- `Number.parseInt(s, 10)`: trim leading whitespace, accept an optional
sign, then the longest leading run of decimal digits; `none` models `NaN`
(no digits). -/
def jsParseInt (s : JStr) : Option Int :=
  let t := s.dropWhile jsWhitespaceChar
  match t with
  | '-' :: r =>
      let ds := r.takeWhile Char.isDigit
      if ds.isEmpty then none else some (-(digitsVal ds : Int))
  | '+' :: r =>
      let ds := r.takeWhile Char.isDigit
      if ds.isEmpty then none else some (digitsVal ds : Int)
  | _ =>
      let ds := t.takeWhile Char.isDigit
      if ds.isEmpty then none else some (digitsVal ds : Int)

/-- `String(n)` on a JS number (`none` models `NaN`). -/
def jsToString : Option Int → JStr
  | some n => (toString n).toList
  | none => "NaN".toList

/-- JS addition with a constant; `NaN` propagates. -/
def jsAdd (a : Option Int) (n : Int) : Option Int := a.map (fun x => x + n)

/-- JS `a > n`; false when `a` is `NaN`. -/
def jsGtNat (a : Option Int) (n : Nat) : Bool :=
  match a with
  | some x => decide ((n : Int) < x)
  | none => false

/-- JS `a >= n`; false when `a` is `NaN`. -/
def jsGeNat (a : Option Int) (n : Nat) : Bool :=
  match a with
  | some x => decide ((n : Int) ≤ x)
  | none => false

/-- JS `a < n`; false when `a` is `NaN`. -/
def jsLtNat (a : Option Int) (n : Nat) : Bool :=
  match a with
  | some x => decide (x < (n : Int))
  | none => false

/-- JS array indexing `l[i]`; `undefined` for `NaN` or out-of-range. -/
def jsIndexList (l : List JStr) (i : Option Int) : Option JStr :=
  match i with
  | some k => if k < 0 then none else l[k.toNat]?
  | none => none

/-- JS string indexing `s[i]`; `undefined` for `NaN` or out-of-range. -/
def jsCharAt (s : JStr) (i : Option Int) : Option Char :=
  match i with
  | some k => if k < 0 then none else s[k.toNat]?
  | none => none

/-- JS `s.slice(i)`: a negative start counts from the end, `NaN` counts
as 0. -/
def jsSliceFrom (s : JStr) (i : Option Int) : JStr :=
  match i with
  | some k => if k < 0 then s.drop ((s.length + k : Int)).toNat else s.drop k.toNat
  | none => s

/-- The identifier check `/^[a-zA-Z_][a-zA-Z0-9_]*$/`. -/
def isValidVarName (v : JStr) : Bool :=
  match v with
  | [] => false
  | c :: cs => (c.isAlpha || c == '_') && cs.all (fun d => d.isAlphanum || d == '_')

def optargKey : JStr := "OPTARG".toList

def optindKey : JStr := "OPTIND".toList

def charIndexKey : JStr := "__GETOPTS_CHARINDEX".toList

def natToJStr (n : Nat) : JStr := (toString n).toList

/-- The positional parameters `$1..$#` read from the environment
(`handleGetopts` lines 47-53). -/
def positionalParams (env : Env) : List JStr :=
  match jsParseInt (envGet env "#".toList "0".toList) with
  | none => []
  | some n => (List.range n.toNat).map (fun i => envGet env (natToJStr (i + 1)) [])

/-- The arguments `getopts` parses: explicit arguments after the first
two, or else the positional parameters. -/
def getoptsArgsToProcess (env : Env) (args : List JStr) : List JStr :=
  if args.length > 2 then args.drop 2 else positionalParams env

/-- Current `OPTIND` (1-based, default 1, clamped below at 1; `NaN` stays
`NaN`). -/
def getoptsOptind (env : Env) : Option Int :=
  match jsParseInt (envGet env optindKey "1".toList) with
  | some n => some (if n < 1 then 1 else n)
  | none => none

/-- The stored char index within the current bundled argument. -/
def getoptsCharIndex (env : Env) : Option Int :=
  jsParseInt (envGet env charIndexKey "0".toList)

/-- `charIndex === 0 ? 1 : charIndex`: skip the leading dash when starting
a new argument. -/
def getoptsStartIndex (env : Env) : Option Int :=
  if getoptsCharIndex env = some 0 then some 1 else getoptsCharIndex env

/-- The argument currently being parsed, `argsToProcess[optind - 1]`. -/
def getoptsCurrentArg (env : Env) (args : List JStr) : Option JStr :=
  jsIndexList (getoptsArgsToProcess env args) (jsAdd (getoptsOptind env) (-1))

/-- Silent error-reporting mode: the optstring starts with `:`. -/
def getoptsSilentMode (args : List JStr) : Bool :=
  match args.getD 0 [] with
  | ':' :: _ => true
  | _ => false

/-- The optstring with a leading `:` (silent-mode marker) removed. -/
def getoptsActualOptstring (args : List JStr) : JStr :=
  if getoptsSilentMode args then (args.getD 0 []).drop 1 else args.getD 0 []

/-- The `name` operand, `args[1]`. -/
def getoptsVarName (args : List JStr) : JStr := args.getD 1 []

/-- `currentArg.startsWith("-")`. -/
def startsWithDash (s : JStr) : Bool :=
  match s with
  | c :: _ => c == '-'
  | [] => false

/-- `actualOptstring.indexOf(optChar)`; `none` models `-1`. -/
def jsIndexOf (s : JStr) (c : Char) : Option Nat := s.findIdx? (fun d => d == c)

/-- The final lines of `handleGetopts`: set the named variable to the
parsed option character (when the name is valid) and return 0 (2 for an
invalid name). -/
def getoptsFinish (env : Env) (invalidVarName : Bool) (varName : JStr)
    (optChar : Char) : Env × ExecResult :=
  (if !invalidVarName then envSet env varName [optChar] else env,
   ⟨EMPTY, EMPTY, if invalidVarName then 2 else 0⟩)

/-- One pass of `handleGetopts`: either a final environment and result, or
the environment with which the source re-invokes itself (its single
recursive call, used to move past an exhausted bundled argument). -/
inductive GetoptsStep
  | done (res : Env × ExecResult)
  | again (env : Env)
deriving DecidableEq, Repr

/-- The body of `src` `handleGetopts` (unnamed source `getopts` builtin),
translated branch by branch; `.again` marks its recursive call. -/
def getoptsStep (env : Env) (args : List JStr) : GetoptsStep :=
  if args.length < 2 then
    .done (env, failure "bash: getopts: usage: getopts optstring name [arg ...]\n" 1)
  else
    let varName := getoptsVarName args
    let invalidVarName := !(isValidVarName varName)
    let silentMode := getoptsSilentMode args
    let actualOptstring := getoptsActualOptstring args
    let argsToProcess := getoptsArgsToProcess env args
    let optind := getoptsOptind env
    let startIndex := getoptsStartIndex env
    let env1 := envSet env optargKey []
    if jsGtNat optind argsToProcess.length then
      let env2 := if !invalidVarName then envSet env1 varName ['?'] else env1
      let env2 := envSet env2 optindKey (natToJStr (argsToProcess.length + 1))
      let env2 := envSet env2 charIndexKey ['0']
      .done (env2, ⟨EMPTY, EMPTY, if invalidVarName then 2 else 1⟩)
    else
      match getoptsCurrentArg env args with
      | none =>
        let env2 := if !invalidVarName then envSet env1 varName ['?'] else env1
        .done (env2, ⟨EMPTY, EMPTY, if invalidVarName then 2 else 1⟩)
      | some currentArg =>
        if currentArg = ['-'] || !(startsWithDash currentArg) then
          let env2 := if !invalidVarName then envSet env1 varName ['?'] else env1
          .done (env2, ⟨EMPTY, EMPTY, if invalidVarName then 2 else 1⟩)
        else if currentArg = ['-', '-'] then
          let env2 := envSet env1 optindKey (jsToString (jsAdd optind 1))
          let env2 := envSet env2 charIndexKey ['0']
          let env2 := if !invalidVarName then envSet env2 varName ['?'] else env2
          .done (env2, ⟨EMPTY, EMPTY, if invalidVarName then 2 else 1⟩)
        else
          match jsCharAt currentArg startIndex with
          | none =>
            let env2 := envSet env1 optindKey (jsToString (jsAdd optind 1))
            let env2 := envSet env2 charIndexKey ['0']
            .again env2
          | some optChar =>
            match jsIndexOf actualOptstring optChar with
            | none =>
              let stderrMsg :=
                if !silentMode then "bash: illegal option -- ".toList ++ [optChar] ++ ['\n']
                else []
              let env2 := if silentMode then envSet env1 optargKey [optChar] else env1
              let env2 := if !invalidVarName then envSet env2 varName ['?'] else env2
              let env2 :=
                if jsLtNat (jsAdd startIndex 1) currentArg.length then
                  envSet (envSet env2 charIndexKey (jsToString (jsAdd startIndex 1)))
                    optindKey (jsToString optind)
                else
                  envSet (envSet env2 optindKey (jsToString (jsAdd optind 1)))
                    charIndexKey ['0']
              .done (env2, ⟨EMPTY, utf8Encode stderrMsg, if invalidVarName then 2 else 0⟩)
            | some optIndex =>
              let requiresArg := decide (optIndex + 1 < actualOptstring.length) &&
                (actualOptstring.getD (optIndex + 1) ' ' == ':')
              if requiresArg then
                if jsLtNat (jsAdd startIndex 1) currentArg.length then
                  let env2 := envSet env1 optargKey (jsSliceFrom currentArg (jsAdd startIndex 1))
                  let env2 := envSet env2 optindKey (jsToString (jsAdd optind 1))
                  let env2 := envSet env2 charIndexKey ['0']
                  .done (getoptsFinish env2 invalidVarName varName optChar)
                else if jsGeNat optind argsToProcess.length then
                  let stderrMsg :=
                    if !silentMode then
                      "bash: option requires an argument -- ".toList ++ [optChar] ++ ['\n']
                    else []
                  let env2 :=
                    if !silentMode then
                      (if !invalidVarName then envSet env1 varName ['?'] else env1)
                    else
                      let e := envSet env1 optargKey [optChar]
                      if !invalidVarName then envSet e varName [':'] else e
                  let env2 := envSet env2 optindKey (jsToString (jsAdd optind 1))
                  let env2 := envSet env2 charIndexKey ['0']
                  .done (env2, ⟨EMPTY, utf8Encode stderrMsg, if invalidVarName then 2 else 0⟩)
                else
                  let env2 := envSet env1 optargKey
                    ((jsIndexList argsToProcess optind).getD "undefined".toList)
                  let env2 := envSet env2 optindKey (jsToString (jsAdd optind 2))
                  let env2 := envSet env2 charIndexKey ['0']
                  .done (getoptsFinish env2 invalidVarName varName optChar)
              else
                let env2 :=
                  if jsLtNat (jsAdd startIndex 1) currentArg.length then
                    envSet (envSet env1 charIndexKey (jsToString (jsAdd startIndex 1)))
                      optindKey (jsToString optind)
                  else
                    envSet (envSet env1 optindKey (jsToString (jsAdd optind 1)))
                      charIndexKey ['0']
                .done (getoptsFinish env2 invalidVarName varName optChar)

/-- `handleGetopts` with explicit fuel for its single (tail-) recursive
call.  Running out of fuel yields the impossible exit code `-1`; fuel 2
always suffices, which `handleGetoptsF_stable` below proves. -/
def handleGetoptsF : Nat → Env → List JStr → Env × ExecResult
  | 0, env, _ => (env, ⟨EMPTY, EMPTY, -1⟩)
  | fuel + 1, env, args =>
    match getoptsStep env args with
    | .done res => res
    | .again env2 => handleGetoptsF fuel env2 args

/-- `handleGetopts(ctx, args)`: the getopts builtin.  The recursion depth
is at most 1 (the recursive call resets the stored char index to 0, after
which an option character is always found or a terminal branch taken), so
fuel 2 computes the function exactly. -/
def handleGetopts (env : Env) (args : List JStr) : Env × ExecResult :=
  handleGetoptsF 2 env args

/-- `src/types.ts` `Command`: a named command with an `execute` function.
The argument vector and context types are abstract (`α`, `β`). -/
structure Command (α β : Type) where
  name : String
  execute : α → β → ExecResult

/-- `src/custom-commands.ts` `LazyCommand`: `{ name, load() → Command }`.
The loader is modelled as a function from `Unit` so that "invoking the
loader" is an observable step that can be counted. -/
structure LazyCommand (α β : Type) where
  name : String
  load : Unit → Command α β

/-- The wrapper built by `createLazyCustomCommand`: the lazy command's
name together with the mutable `cached` cell (initially `null`). -/
structure LazyWrapped (α β : Type) where
  name : String
  cached : Option (Command α β)

/-- `src/custom-commands.ts` `createLazyCustomCommand`: a wrapper with the
lazy command's name and an empty cache. -/
def createLazyCustomCommand (lazy : LazyCommand α β) : LazyWrapped α β :=
  { name := lazy.name, cached := none }

/-- One `execute(args, ctx)` call on the wrapper: when the cache is empty,
invoke `lazy.load()` and cache the result; then delegate to the cached
command.  Returns the new cache, whether the loader was invoked by this
call, and the delegated result. -/
def lazyExecuteStep (lazy : LazyCommand α β) (cached : Option (Command α β))
    (args : α) (ctx : β) : Option (Command α β) × Bool × ExecResult :=
  match cached with
  | none =>
      let c := lazy.load ()
      (some c, true, c.execute args ctx)
  | some c => (some c, false, c.execute args ctx)

/-- A sequence of `execute` invocations on the wrapper: final cache, the
results in order, and how many of the calls invoked the loader. -/
def runLazySeq (lazy : LazyCommand α β) :
    Option (Command α β) → List (α × β) → Option (Command α β) × List ExecResult × Nat
  | cached, [] => (cached, [], 0)
  | cached, (args, ctx) :: rest =>
      let (cached', loaded, r) := lazyExecuteStep lazy cached args ctx
      let (cachedF, rs, n) := runLazySeq lazy cached' rest
      (cachedF, r :: rs, (if loaded then 1 else 0) + n)

/-- A JS object's prototype as relevant here: `Object.create(null)` versus
an ordinary `Object.prototype`-backed object. -/
inductive JSProto
  | null
  | objectProto
deriving DecidableEq, Repr

/-- A JS object: its prototype and its own enumerable string properties in
insertion order. -/
structure JSObject where
  proto : JSProto
  own : List (JStr × JStr)
deriving DecidableEq, Repr

/-- `result[key] = value` on a null-prototype object: an ordinary own
property write (update in place, or append a new property; the prototype
is untouched — without `Object.prototype` in the chain there is no
`__proto__` accessor to trigger). -/
def jsSetOwn : List (JStr × JStr) → JStr → JStr → List (JStr × JStr)
  | [], k, v => [(k, v)]
  | (k', v') :: rest, k, v =>
      if k' = k then (k, v) :: rest else (k', v') :: jsSetOwn rest k v

/-- Own-property lookup. -/
def jsGetOwn : List (JStr × JStr) → JStr → Option JStr
  | [], _ => none
  | (k', v') :: rest, k => if k' = k then some v' else jsGetOwn rest k

/-- `src` `mapToRecord` (environment helpers): convert a
`Map<string, Uint8Array>` to a null-prototype `Record<string, string>`
(`Object.create(null)` followed by one own-property write per map entry,
values UTF-8 decoded). -/
def mapToRecord (env : List (JStr × Bytes)) : JSObject :=
  { proto := .null,
    own := env.foldl (fun acc kv => jsSetOwn acc kv.1 (utf8Decode kv.2)) [] }

/-- Concrete statement executor for the C1 witness: statement 0 succeeds
with output, statement 1 throws a `BreakError` carrying output. -/
def stmtExecBreak : StmtExec Nat Unit := fun n st =>
  match n with
  | 0 => (st, Except.ok ⟨[65], [66], 0⟩)
  | 1 => (st, Except.error (ShellError.breakError 1 [67] [68]))
  | _ => (st, Except.ok ⟨[], [], 0⟩)

/-- Concrete statement executor for the C2 witness: statement 0 succeeds
with output, any other statement throws a generic error. -/
def stmtExecBoom : StmtExec Nat Unit := fun n st =>
  if n = 0 then (st, Except.ok ⟨[65], [66], 0⟩)
  else (st, Except.error (ShellError.otherError "boom"))

/-- Concrete statement executor for the C3 witness: each statement
returns its number as stdout and exit code, preserving the state. -/
def condExecEcho : StmtExec Nat (IState Unit) := fun n st =>
  (st, Except.ok ⟨[n], [], (n : Int)⟩)

/-- Concrete lazy command used by the C9 witness. -/
def lazyCommandInstance : LazyCommand Unit Unit :=
  { name := "lazy-hello",
    load := fun _ => { name := "hello", execute := fun _ _ => ⟨[104], [], 0⟩ } }

/-- Concrete environment map with adversarial keys for the C10 witness. -/
def protoPollutionEnv : List (JStr × Bytes) :=
  [("__proto__".toList, [104, 105]), ("constructor".toList, []), ("hasOwnProperty".toList, [33])]

/-- Whether the matched option character is declared (at its first
occurrence in the optstring) to require an argument: its position is
followed by `:`. -/
def getoptsRequiresArg (args : List JStr) (c : Char) : Bool :=
  match jsIndexOf (getoptsActualOptstring args) c with
  | some optIndex =>
      decide (optIndex + 1 < (getoptsActualOptstring args).length) &&
        ((getoptsActualOptstring args).getD (optIndex + 1) ' ' == ':')
  | none => false

deriving instance DecidableEq for Except

/-! ## Helper lemmas -/

/-- The head of `dropWhile p l`, when present, does not satisfy `p`. -/
theorem head_dropWhile_not (p : α → Bool) (l : List α) (x : α)
    (h : (l.dropWhile p).head? = some x) : p x = false := by
  induction l with
  | nil => simp [List.dropWhile_nil] at h
  | cons a l ih =>
      rw [List.dropWhile_cons] at h
      by_cases hp : p a
      · exact ih (by simpa [hp] using h)
      · rw [if_neg hp] at h
        simp only [List.head?_cons, Option.some.injEq] at h
        subst h
        exact Bool.not_eq_true _ ▸ hp

/-- `trimTrailingNewlines` splits off exactly a trailing run of `0x0A`
bytes. -/
theorem trimTrailingNewlines_decomp (b : Bytes) :
    b = trimTrailingNewlines b ++
      List.replicate (b.reverse.takeWhile (fun x => x = 0x0a)).length 0x0a := by
  have hall : ∀ x ∈ (b.reverse.takeWhile (fun x => decide (x = 0x0a))).reverse, x = 0x0a := by
    intro x hx
    have := List.mem_takeWhile_imp (List.mem_reverse.mp hx)
    simpa using this
  have hrep := List.eq_replicate_of_mem hall
  rw [List.length_reverse] at hrep
  calc b = b.reverse.reverse := (List.reverse_reverse b).symm
    _ = ((b.reverse.takeWhile (fun x => decide (x = 0x0a))) ++
          (b.reverse.dropWhile (fun x => decide (x = 0x0a)))).reverse := by
        rw [List.takeWhile_append_dropWhile]
    _ = (b.reverse.dropWhile (fun x => decide (x = 0x0a))).reverse ++
          (b.reverse.takeWhile (fun x => decide (x = 0x0a))).reverse := by
        rw [List.reverse_append]
    _ = trimTrailingNewlines b ++
          List.replicate (b.reverse.takeWhile (fun x => x = 0x0a)).length 0x0a := by
        rw [hrep]; rfl

/-- The result of `trimTrailingNewlines` does not end in `0x0A`. -/
theorem trimTrailingNewlines_getLast_ne (b : Bytes) (x : Nat)
    (h : (trimTrailingNewlines b).getLast? = some x) : x ≠ 0x0a := by
  have hh : ((trimTrailingNewlines b).reverse).head? = some x := by
    rw [List.head?_reverse]; exact h
  unfold trimTrailingNewlines at hh
  rw [List.reverse_reverse] at hh
  have := head_dropWhile_not _ _ _ hh
  simpa using this

/-- A byte string that does not end in `0x0A` is unchanged by
`trimTrailingNewlines`. -/
theorem trimTrailingNewlines_of_getLast_ne (b : Bytes)
    (h : b.getLast? ≠ some 0x0a) : trimTrailingNewlines b = b := by
  unfold trimTrailingNewlines
  cases hr : b.reverse with
  | nil =>
      have : b = [] := by simpa using congrArg List.reverse hr
      simp [this]
  | cons a t =>
      have ha : b.getLast? = some a := by rw [← List.head?_reverse, hr]; rfl
      have hane : a ≠ 0x0a := fun e => h (by rw [ha, e])
      have hd : List.dropWhile (fun x => decide (x = 0x0a)) (a :: t) = a :: t := by
        rw [List.dropWhile_cons, if_neg (by simpa using hane)]
      rw [hd, ← hr, List.reverse_reverse]

/-! ## C4: `throwExecutionLimit` -/

/-- C4 (counterexample): the claim that `throwExecutionLimit` throws an
`ExecutionLimitError` carrying exactly the given fields fails at an
explicit input: with empty accumulated stderr the constructor replaces
the stderr field by the formatted message `bash: <message>\n`. -/
theorem throwExecutionLimit_not_exact_fields :
    throwExecutionLimit "recursion depth exceeded" LimitType.recursion EMPTY EMPTY ≠
      Except.error (ShellError.executionLimitError "recursion depth exceeded"
        LimitType.recursion EMPTY EMPTY) := by
  decide

/-- C4 (amended): `throwExecutionLimit` always throws — it never produces
a normal result — and the thrown `ExecutionLimitError` (whose associated
exit code `EXIT_CODE` is 126) carries exactly the given message, limit
type and stdout, and carries the given stderr when that is nonempty;
when the given stderr is empty it carries the formatted message
`bash: <message>\n` as stderr instead. -/
theorem throwExecutionLimit_spec (message : String) (limitType : LimitType)
    (stdout stderr : Bytes) :
    throwExecutionLimit message limitType stdout stderr =
      Except.error (ShellError.executionLimitError message limitType stdout
        (if stderr.length > 0 then stderr else encodeStr ("bash: " ++ message ++ "\n"))) ∧
    ExecutionLimitError.EXIT_CODE = 126 ∧
    ∀ r : ExecResult, throwExecutionLimit message limitType stdout stderr ≠ Except.ok r := by
  refine ⟨rfl, rfl, fun r h => ?_⟩
  simp [throwExecutionLimit] at h

/-! ## C7: `trimTrailingNewlines` -/

/-- C7: `trimTrailingNewlines b` equals `b` with exactly its trailing
`0x0A` bytes removed: `b` is the result followed by a run of newlines,
the result does not end in `0x0A`, every prefix of `b` not ending in
`0x0A` is no longer than the result (so it is the longest such prefix and
no non-trailing byte is altered), an input with no trailing newline is
returned unchanged, and the operation is idempotent. -/
theorem trimTrailingNewlines_trims_exactly (b : Bytes) :
    (∃ k, b = trimTrailingNewlines b ++ List.replicate k 0x0a) ∧
    (∀ x, (trimTrailingNewlines b).getLast? = some x → x ≠ 0x0a) ∧
    (∀ p, List.IsPrefix p b → p.getLast? ≠ some 0x0a →
      p.length ≤ (trimTrailingNewlines b).length) ∧
    (b.getLast? ≠ some 0x0a → trimTrailingNewlines b = b) ∧
    trimTrailingNewlines (trimTrailingNewlines b) = trimTrailingNewlines b := by
  refine ⟨⟨_, trimTrailingNewlines_decomp b⟩,
    fun x h => trimTrailingNewlines_getLast_ne b x h, ?_,
    fun h => trimTrailingNewlines_of_getLast_ne b h, ?_⟩
  · intro p hp hlast
    by_contra hlt
    push_neg at hlt
    have hpre : List.IsPrefix (trimTrailingNewlines b) b :=
      ⟨_, (trimTrailingNewlines_decomp b).symm⟩
    have hrp : List.IsPrefix (trimTrailingNewlines b) p :=
      List.prefix_of_prefix_length_le hpre hp (le_of_lt hlt)
    obtain ⟨q, hq⟩ := hrp
    have hqpre : List.IsPrefix q
        (List.replicate (b.reverse.takeWhile (fun x => x = 0x0a)).length 0x0a) := by
      have h1 : List.IsPrefix (trimTrailingNewlines b ++ q)
          (trimTrailingNewlines b ++
            List.replicate (b.reverse.takeWhile (fun x => x = 0x0a)).length 0x0a) := by
        rw [hq, ← trimTrailingNewlines_decomp b]; exact hp
      exact (List.prefix_append_right_inj _).mp h1
    have hqne : q ≠ [] := by
      intro e
      rw [e, List.append_nil] at hq
      rw [hq] at hlt
      omega
    have hqlast : q.getLast? = some 0x0a := by
      rw [List.getLast?_eq_getLast q hqne]
      exact congrArg some (List.eq_of_mem_replicate (hqpre.subset (List.getLast_mem hqne)))
    exact hlast (by rw [← hq, List.getLast?_append_of_ne_nil _ hqne, hqlast])
  · apply trimTrailingNewlines_of_getLast_ne
    intro h
    exact trimTrailingNewlines_getLast_ne b _ h rfl

/-- C7 witness: the theorem applied at a concrete input. -/
theorem trimTrailingNewlines_trims_exactly_witness :
    trimTrailingNewlines [65, 10, 66] = [65, 10, 66] :=
  (trimTrailingNewlines_trims_exactly [65, 10, 66]).2.2.2.1 (by decide)

/-! ## C9: `createLazyCustomCommand` -/

/-- Once the cache is populated, no later `execute` call invokes the
loader: every call delegates to the cached command. -/
theorem runLazySeq_cached (lazy : LazyCommand α β) (c : Command α β)
    (calls : List (α × β)) :
    runLazySeq lazy (some c) calls =
      (some c, calls.map (fun p => c.execute p.1 p.2), 0) := by
  induction calls with
  | nil => rfl
  | cons hd tl ih => simp [runLazySeq, lazyExecuteStep, ih]

/-- C9: the wrapper built by `createLazyCustomCommand` carries the lazy
command's name, and across any sequence of `execute` invocations the
loader runs at most once — never for an empty sequence, exactly once
otherwise, after which the loaded command is cached — and every
invocation delegates to that single loaded command with its own
arguments and context. -/
theorem createLazyCustomCommand_spec (lazy : LazyCommand α β) (calls : List (α × β)) :
    (createLazyCustomCommand lazy).name = lazy.name ∧
    (runLazySeq lazy (createLazyCustomCommand lazy).cached calls).2.2 ≤ 1 ∧
    (calls = [] →
      (runLazySeq lazy (createLazyCustomCommand lazy).cached calls).2.2 = 0) ∧
    (calls ≠ [] →
      (runLazySeq lazy (createLazyCustomCommand lazy).cached calls).2.2 = 1 ∧
      (runLazySeq lazy (createLazyCustomCommand lazy).cached calls).1 =
        some (lazy.load ())) ∧
    (runLazySeq lazy (createLazyCustomCommand lazy).cached calls).2.1 =
      calls.map (fun p => (lazy.load ()).execute p.1 p.2) := by
  cases calls with
  | nil => exact ⟨rfl, by simp [runLazySeq], fun _ => rfl, fun h => absurd rfl h, rfl⟩
  | cons hd tl =>
      refine ⟨rfl, ?_, fun h => by simp at h, fun _ => ?_, ?_⟩ <;>
        simp [createLazyCustomCommand, runLazySeq, lazyExecuteStep, runLazySeq_cached]

/-- C9 witness: the theorem applied at a concrete input (one call loads
the command exactly once and delegates to it). -/
theorem createLazyCustomCommand_spec_witness :
    (runLazySeq lazyCommandInstance
      (createLazyCustomCommand lazyCommandInstance).cached [((), ())]).2.2 = 1 :=
  ((createLazyCustomCommand_spec lazyCommandInstance [((), ())]).2.2.2.1
    (by simp)).1

/-! ## C10: `mapToRecord` -/

/-- An own-property write with a key absent from the object appends the
property. -/
theorem jsSetOwn_not_mem (acc : List (JStr × JStr)) (k v : JStr)
    (h : ∀ p ∈ acc, p.1 ≠ k) : jsSetOwn acc k v = acc ++ [(k, v)] := by
  induction acc with
  | nil => rfl
  | cons hd tl ih =>
      have hne : hd.1 ≠ k := h hd (by simp)
      simp only [jsSetOwn, if_neg hne, List.cons_append, List.cons.injEq, true_and]
      exact ih (fun p hp => h p (by simp [hp]))

/-- Folding own-property writes of pairwise-distinct fresh keys over an
object appends them all in order. -/
theorem foldl_jsSetOwn_fresh :
    ∀ (env : List (JStr × Bytes)) (acc : List (JStr × JStr)),
    (env.map Prod.fst).Nodup → (∀ p ∈ acc, p.1 ∉ env.map Prod.fst) →
    env.foldl (fun a kv => jsSetOwn a kv.1 (utf8Decode kv.2)) acc =
      acc ++ env.map (fun kv => (kv.1, utf8Decode kv.2)) := by
  intro env
  induction env with
  | nil => intro acc _ _; simp
  | cons hd tl ih =>
      intro acc hnd hfresh
      rw [List.map_cons, List.nodup_cons] at hnd
      simp only [List.foldl_cons]
      rw [jsSetOwn_not_mem acc hd.1 _
        (fun p hp e => hfresh p hp (by simp [e]))]
      rw [ih (acc ++ [(hd.1, utf8Decode hd.2)]) hnd.2 ?_]
      · simp
      · intro p hp
        rcases List.mem_append.mp hp with h1 | h2
        · exact fun hm => hfresh p h1 (by simp [hm])
        · have hpe : p = (hd.1, utf8Decode hd.2) := by simpa using h2
          rw [hpe]
          exact hnd.1

/-- C10: `mapToRecord` yields a null-prototype object whose own
properties are exactly the map's entries (keys in map order, values
UTF-8-decoded).  The prototype field is `null` for every input map, so
keys such as `__proto__` become ordinary own data properties and the
`Object` prototype chain is never involved. -/
theorem mapToRecord_spec (env : List (JStr × Bytes))
    (hnd : (env.map Prod.fst).Nodup) :
    (mapToRecord env).proto = JSProto.null ∧
    (mapToRecord env).own = env.map (fun kv => (kv.1, utf8Decode kv.2)) := by
  refine ⟨rfl, ?_⟩
  show env.foldl (fun a kv => jsSetOwn a kv.1 (utf8Decode kv.2)) [] = _
  rw [foldl_jsSetOwn_fresh env [] hnd (by simp)]
  simp

/-- C10 witness: the theorem applied at a concrete map whose keys are
`__proto__`, `constructor` and `hasOwnProperty`. -/
theorem mapToRecord_spec_witness :
    (mapToRecord protoPollutionEnv).proto = JSProto.null ∧
    (mapToRecord protoPollutionEnv).own =
      [("__proto__".toList, "hi".toList), ("constructor".toList, []),
        ("hasOwnProperty".toList, "!".toList)] := by
  have h := mapToRecord_spec protoPollutionEnv (by decide)
  exact ⟨h.1, h.2.trans (by decide)⟩

/-! ## C1 and C2: `executeStatements` -/

/-- Stepping `executeStatementsLoop` over a leading run of normally
returning statements accumulates their outputs and keeps the last exit
code. -/
theorem executeStatementsLoop_append_trace (exec : StmtExec Stmt σ) (pre : List Stmt) :
    ∀ (rest : List Stmt) (st st1 : σ) (rs : List ExecResult) (out err : Bytes) (code : Int),
    execTrace exec pre st = some (rs, st1) →
    executeStatementsLoop exec (pre ++ rest) st out err code =
      executeStatementsLoop exec rest st1 (out ++ (rs.map (fun r => r.stdout)).flatten)
        (err ++ (rs.map (fun r => r.stderr)).flatten)
        ((rs.map (fun r => r.exitCode)).getLastD code) := by
  induction pre with
  | nil =>
      intro rest st st1 rs out err code htr
      simp only [execTrace, Option.some.injEq, Prod.mk.injEq] at htr
      obtain ⟨h1, h2⟩ := htr
      subst h1
      subst h2
      simp
  | cons s pre' ih =>
      intro rest st st1 rs out err code htr
      simp only [execTrace] at htr
      cases hx : exec s st with
      | mk st' oc =>
        rw [hx] at htr
        cases oc with
        | error e => simp at htr
        | ok r =>
          simp only [Option.map_eq_some'] at htr
          obtain ⟨⟨rs', st2⟩, hts, heq⟩ := htr
          simp only [Prod.mk.injEq] at heq
          obtain ⟨h1, h2⟩ := heq
          subst h1
          subst h2
          show executeStatementsLoop exec (s :: (pre' ++ rest)) st out err code = _
          simp only [executeStatementsLoop, hx]
          rw [ih rest st' st2 rs' (concat out r.stdout) (concat err r.stderr) r.exitCode hts]
          simp only [concat, List.map_cons, List.flatten_cons, List.append_assoc,
            List.getLastD_cons]

/-- C1: when a statement throws one of the re-thrown control-flow errors
(break, continue, return, errexit, exit, execution-limit, subshell-exit),
`executeStatements` re-throws it after prepending the stdout and stderr
accumulated so far (the initial output plus everything produced by the
completed statements), so no output produced before the error is lost. -/
theorem executeStatements_rethrows_with_output (exec : StmtExec Stmt σ)
    (pre post : List Stmt) (s : Stmt) (st0 st1 st2 : σ) (rs : List ExecResult)
    (e : ShellError) (out0 err0 : Bytes)
    (htrace : execTrace exec pre st0 = some (rs, st1))
    (hs : exec s st1 = (st2, Except.error e))
    (he : (isScopeExitError e || isErrexitError e || isExitError e ||
      isExecutionLimitError e || isSubshellExitError e) = true) :
    executeStatements exec (pre ++ s :: post) st0 out0 err0 =
      (st2, Except.error (prependOutput e
        (out0 ++ (rs.map (fun r => r.stdout)).flatten)
        (err0 ++ (rs.map (fun r => r.stderr)).flatten))) := by
  unfold executeStatements
  rw [executeStatementsLoop_append_trace exec pre (s :: post) st0 st1 rs out0 err0 0 htrace]
  simp only [executeStatementsLoop, hs]
  rw [if_pos he]

/-- C1 witness: the theorem applied at a concrete input — the break error
is re-thrown carrying the initial output, the completed statement's
output, and its own output, in that order. -/
theorem executeStatements_rethrows_with_output_witness :
    executeStatements stmtExecBreak [0, 1, 2] () [1] [2] =
      ((), Except.error (ShellError.breakError 1 [1, 65, 67] [2, 66, 68])) := by
  have h := executeStatements_rethrows_with_output stmtExecBreak [0] [2] 1 () () ()
    [⟨[65], [66], 0⟩] (ShellError.breakError 1 [67] [68]) [1] [2] rfl rfl (by decide)
  exact h.trans (by decide)

/-- C2: when a statement throws a value that is not one of the re-thrown
control-flow errors, `executeStatements` does not re-throw: it returns
exit code 1, keeps the accumulated stdout unchanged, and appends the
formatted message `bash: internal error: <message>\n` to the accumulated
stderr.  (`getErrorMessage` is modelled from the spec, its source file
not being provided.) -/
theorem executeStatements_swallows_unexpected (exec : StmtExec Stmt σ)
    (pre post : List Stmt) (s : Stmt) (st0 st1 st2 : σ) (rs : List ExecResult)
    (msg : String) (out0 err0 : Bytes)
    (htrace : execTrace exec pre st0 = some (rs, st1))
    (hs : exec s st1 = (st2, Except.error (ShellError.otherError msg))) :
    executeStatements exec (pre ++ s :: post) st0 out0 err0 =
      (st2, Except.ok
        ⟨out0 ++ (rs.map (fun r => r.stdout)).flatten,
          (err0 ++ (rs.map (fun r => r.stderr)).flatten) ++
            encodeStr ("bash: internal error: " ++ (msg ++ "\n")), 1⟩) := by
  unfold executeStatements
  rw [executeStatementsLoop_append_trace exec pre (s :: post) st0 st1 rs out0 err0 0 htrace]
  simp only [executeStatementsLoop, hs]
  rw [if_neg (by simp [isScopeExitError, isErrexitError, isExitError,
    isExecutionLimitError, isSubshellExitError])]
  simp only [concat, getErrorMessage, String.append_assoc]

/-- C2 witness: the theorem applied at a concrete input — accumulated
stdout survives, the message lands on stderr, the exit code is 1. -/
theorem executeStatements_swallows_unexpected_witness :
    executeStatements stmtExecBoom [0, 5] () [] [] =
      ((), Except.ok ⟨[65], [66] ++ encodeStr "bash: internal error: boom\n", 1⟩) := by
  have h := executeStatements_swallows_unexpected stmtExecBoom [0] [] 5 () () ()
    [⟨[65], [66], 0⟩] "boom" [] [] rfl rfl
  exact h.trans (by decide)

/-! ## C3: `executeCondition` -/

/-- Stepping `executeConditionLoop` along a run in which every statement
returns normally accumulates the per-statement outputs. -/
theorem executeConditionLoop_trace (exec : StmtExec Stmt (IState σ)) (stmts : List Stmt) :
    ∀ (st st1 : IState σ) (rs : List ExecResult) (out err : Bytes) (code : Int),
    execTrace exec stmts st = some (rs, st1) →
    executeConditionLoop exec stmts st out err code =
      (st1, Except.ok ⟨out ++ (rs.map (fun r => r.stdout)).flatten,
        err ++ (rs.map (fun r => r.stderr)).flatten,
        (rs.map (fun r => r.exitCode)).getLastD code⟩) := by
  induction stmts with
  | nil =>
      intro st st1 rs out err code htr
      simp only [execTrace, Option.some.injEq, Prod.mk.injEq] at htr
      obtain ⟨h1, h2⟩ := htr
      subst h1
      subst h2
      simp [executeConditionLoop]
  | cons s rest ih =>
      intro st st1 rs out err code htr
      simp only [execTrace] at htr
      cases hx : exec s st with
      | mk st' oc =>
        rw [hx] at htr
        cases oc with
        | error e => simp at htr
        | ok r =>
          simp only [Option.map_eq_some'] at htr
          obtain ⟨⟨rs', st2⟩, hts, heq⟩ := htr
          simp only [Prod.mk.injEq] at heq
          obtain ⟨h1, h2⟩ := heq
          subst h1
          subst h2
          simp only [executeConditionLoop, hx]
          rw [ih st' st2 rs' (concat out r.stdout) (concat err r.stderr) r.exitCode hts]
          simp only [concat, List.map_cons, List.flatten_cons, List.append_assoc,
            List.getLastD_cons]

/-- When every statement's execution preserves the `inCondition` flag,
the condition loop keeps it raised throughout. -/
theorem executeConditionLoop_keeps_flag (exec : StmtExec Stmt (IState σ))
    (hpres : ∀ s t, ((exec s t).1).inCondition = t.inCondition) (stmts : List Stmt) :
    ∀ (st : IState σ) (out err : Bytes) (code : Int), st.inCondition = true →
    ((executeConditionLoop exec stmts st out err code).1).inCondition = true := by
  induction stmts with
  | nil => intro st out err code h; simpa [executeConditionLoop] using h
  | cons s rest ih =>
      intro st out err code h
      simp only [executeConditionLoop]
      cases hx : exec s st with
      | mk st' oc =>
        have hst' : st'.inCondition = true := by
          have := hpres s st
          rw [hx] at this
          rw [this, h]
        cases oc with
        | ok r => exact ih st' (concat out r.stdout) (concat err r.stderr) r.exitCode hst'
        | error e => exact hst'

/-- C3: `executeCondition` restores `state.inCondition` to its saved
value on every exit path — the final state's flag always equals the
incoming one, whether the loop returned normally or threw; while the
condition statements run, the flag is `true` (for any split of the
statement list, the state in which the remainder starts has the flag
raised, provided statement execution itself preserves the flag); and a
normally completing run yields the statements' stdout and stderr
concatenated in execution order with the exit code of the last statement,
0 for an empty list. -/
theorem executeCondition_spec (exec : StmtExec Stmt (IState σ))
    (statements : List Stmt) (st : IState σ) :
    (((executeCondition exec statements st).1).inCondition = st.inCondition) ∧
    ((∀ s t, ((exec s t).1).inCondition = t.inCondition) →
      ∀ pre suf, statements = pre ++ suf → ∀ (out err : Bytes) (code : Int),
      ((executeConditionLoop exec pre { st with inCondition := true }
        out err code).1).inCondition = true) ∧
    (∀ rs st2, execTrace exec statements { st with inCondition := true } = some (rs, st2) →
      executeCondition exec statements st =
        ({ st2 with inCondition := st.inCondition }, Except.ok
          ⟨(rs.map (fun r => r.stdout)).flatten, (rs.map (fun r => r.stderr)).flatten,
            (rs.map (fun r => r.exitCode)).getLastD 0⟩)) ∧
    executeCondition exec [] st = (st, Except.ok ⟨EMPTY, EMPTY, 0⟩) := by
  refine ⟨by simp [executeCondition], ?_, ?_, rfl⟩
  · intro hpres pre _ _ out err code
    exact executeConditionLoop_keeps_flag exec hpres pre _ out err code rfl
  · intro rs st2 htr
    unfold executeCondition
    rw [executeConditionLoop_trace exec statements _ st2 rs EMPTY EMPTY 0 htr]
    simp [EMPTY]

/-- C3 witness: the theorem applied at a concrete input — the flag is
restored to `false` and the result concatenates both statements' stdout
with the last exit code. -/
theorem executeCondition_spec_witness :
    executeCondition condExecEcho [1, 2] ⟨false, ()⟩ =
      (⟨false, ()⟩, Except.ok ⟨[1, 2], [], 2⟩) := by
  have h := (executeCondition_spec condExecEcho [1, 2] ⟨false, ()⟩).2.2.1
    [⟨[1], [], 1⟩, ⟨[2], [], 2⟩] ⟨true, ()⟩ rfl
  exact h.trans (by decide)

/-! ## C8: UTF-8 round trip and raw bytes -/

/-- A character's code point is below the surrogate range or above it and
below 0x110000. -/
theorem char_valid_nat (c : Char) :
    c.toNat < 0xD800 ∨ (0xDFFF < c.toNat ∧ c.toNat < 0x110000) := by
  have h := c.valid
  simpa [UInt32.isValidChar, Nat.isValidChar, Char.toNat] using h

set_option maxRecDepth 4096 in
/-- Each decode step strictly consumes bytes. -/
theorem utf8DecodeStep_length (l : List Nat) (p : Char × List Nat)
    (h : utf8DecodeStep l = some p) : p.2.length < l.length := by
  cases l with
  | nil => simp [utf8DecodeStep] at h
  | cons b bs =>
      simp only [utf8DecodeStep] at h
      repeat' split at h
      all_goals (cases h; simp only [List.length_cons, List.length_nil]; omega)

/-- The decode loop on an empty stream. -/
theorem utf8DecodeGo_nil (fuel : Nat) : utf8DecodeGo fuel [] = [] := by
  cases fuel with
  | zero => rfl
  | succ f => rfl

/-- Any fuel at least the stream length computes the same decoding. -/
theorem utf8DecodeGo_fuel (fuel : Nat) :
    ∀ (fuel' : Nat) (l : List Nat), l.length ≤ fuel → l.length ≤ fuel' →
    utf8DecodeGo fuel l = utf8DecodeGo fuel' l := by
  induction fuel with
  | zero =>
      intro fuel' l h _
      have he : l = [] := List.length_eq_zero.mp (Nat.le_zero.mp h)
      subst he
      rw [utf8DecodeGo_nil, utf8DecodeGo_nil]
  | succ f ih =>
      intro fuel' l h h'
      cases l with
      | nil => rw [utf8DecodeGo_nil, utf8DecodeGo_nil]
      | cons b bs =>
          cases fuel' with
          | zero => simp at h'
          | succ f' =>
              cases hstep : utf8DecodeStep (b :: bs) with
              | none => simp only [utf8DecodeGo, hstep]
              | some p =>
                  have hlt := utf8DecodeStep_length _ p hstep
                  simp only [List.length_cons] at h h' hlt
                  simp only [utf8DecodeGo, hstep]
                  rw [ih f' p.2 (by omega) (by omega)]

/-- Decoding a stream whose first scalar value decodes to `c` with `rest`
remaining yields `c` followed by the decoding of `rest`. -/
theorem utf8Decode_step_cons (l : List Nat) (c : Char) (rest : List Nat)
    (h : utf8DecodeStep l = some (c, rest)) : utf8Decode l = c :: utf8Decode rest := by
  have hlt : rest.length < l.length := utf8DecodeStep_length l (c, rest) h
  unfold utf8Decode
  cases hl : l.length with
  | zero => exact absurd hlt (by omega)
  | succ m =>
      simp only [utf8DecodeGo, h]
      rw [utf8DecodeGo_fuel m rest.length rest (by omega) (by omega)]

/-- One decode step inverts the encoding of one character. -/
theorem utf8DecodeStep_encodeChar (c : Char) (bs : List Nat) :
    utf8DecodeStep (utf8EncodeChar c ++ bs) = some (c, bs) := by
  have hv := char_valid_nat c
  have hofn : Char.ofNat c.toNat = c := Char.ofNat_toNat c
  unfold utf8EncodeChar
  by_cases h1 : c.toNat < 0x80
  · rw [if_pos h1]
    show utf8DecodeStep (c.toNat :: bs) = some (c, bs)
    simp only [utf8DecodeStep]
    rw [if_pos h1, hofn]
  · by_cases h2 : c.toNat < 0x800
    · rw [if_neg h1, if_pos h2]
      show utf8DecodeStep ((0xC0 + c.toNat / 64) :: (0x80 + c.toNat % 64) :: bs) =
        some (c, bs)
      simp only [utf8DecodeStep]
      rw [if_neg (by omega), if_neg (by omega), if_pos (by omega : 0xC0 + c.toNat / 64 < 0xE0)]
      rw [if_pos (by simp only [isCont, Bool.and_eq_true, decide_eq_true_eq]; omega)]
      have harith : (0xC0 + c.toNat / 64 - 0xC0) * 64 + (0x80 + c.toNat % 64 - 0x80) =
          c.toNat := by omega
      rw [harith, hofn]
    · by_cases h3 : c.toNat < 0x10000
      · rw [if_neg h1, if_neg h2, if_pos h3]
        show utf8DecodeStep ((0xE0 + c.toNat / 4096) :: (0x80 + c.toNat / 64 % 64) ::
          (0x80 + c.toNat % 64) :: bs) = some (c, bs)
        simp only [utf8DecodeStep]
        rw [if_neg (by omega), if_neg (by omega), if_neg (by omega),
          if_pos (by omega : 0xE0 + c.toNat / 4096 < 0xF0)]
        rw [if_pos ?cond]
        case cond =>
          refine ⟨?_, ?_, by simp only [isCont, Bool.and_eq_true, decide_eq_true_eq]; omega⟩ <;>
            split_ifs with h <;> omega
        have harith : (0xE0 + c.toNat / 4096 - 0xE0) * 4096 +
            (0x80 + c.toNat / 64 % 64 - 0x80) * 64 + (0x80 + c.toNat % 64 - 0x80) =
            c.toNat := by omega
        rw [harith, hofn]
      · rw [if_neg h1, if_neg h2, if_neg h3]
        show utf8DecodeStep ((0xF0 + c.toNat / 262144) :: (0x80 + c.toNat / 4096 % 64) ::
          (0x80 + c.toNat / 64 % 64) :: (0x80 + c.toNat % 64) :: bs) = some (c, bs)
        simp only [utf8DecodeStep]
        rw [if_neg (by omega), if_neg (by omega), if_neg (by omega), if_neg (by omega),
          if_pos (by omega : 0xF0 + c.toNat / 262144 < 0xF5)]
        rw [if_pos ?cond4]
        case cond4 =>
          refine ⟨?_, ?_,
            by simp only [isCont, Bool.and_eq_true, decide_eq_true_eq]; omega,
            by simp only [isCont, Bool.and_eq_true, decide_eq_true_eq]; omega⟩ <;>
            split_ifs with h <;> omega
        have harith : (0xF0 + c.toNat / 262144 - 0xF0) * 262144 +
            (0x80 + c.toNat / 4096 % 64 - 0x80) * 4096 +
            (0x80 + c.toNat / 64 % 64 - 0x80) * 64 + (0x80 + c.toNat % 64 - 0x80) =
            c.toNat := by omega
        rw [harith, hofn]

/-- Decoding the UTF-8 encoding of one character in front of any byte
stream yields that character followed by the decoded stream. -/
theorem utf8Decode_encodeChar (c : Char) (bs : List Nat) :
    utf8Decode (utf8EncodeChar c ++ bs) = c :: utf8Decode bs :=
  utf8Decode_step_cons _ c bs (utf8DecodeStep_encodeChar c bs)

/-- C8: decoding inverts encoding — `decode(encode(s)) = s` for every
string — and for a string all of whose code units are at most `0xFF` (the
representation of raw `$'\xHH'` bytes), `encodeMixed` returns exactly the
sequence of those code-unit values as single bytes rather than UTF-8
re-encoding them, so the raw byte 0xFF survives unchanged. -/
theorem utf8_roundtrip_and_raw_bytes (s t : List Char)
    (ht : t.all (fun c => c.toNat ≤ 0xff) = true) :
    utf8Decode (utf8Encode s) = s ∧ encodeMixed t = t.map Char.toNat := by
  constructor
  · induction s with
    | nil => rfl
    | cons c cs ih =>
        simp only [utf8Encode, List.map_cons, List.flatten_cons]
        rw [utf8Decode_encodeChar]
        simp only [utf8Encode] at ih
        rw [ih]
  · rw [encodeMixed, if_pos ht]
    unfold encodeLatin1
    refine List.map_congr_left (fun c hc => ?_)
    have := List.all_eq_true.mp ht c hc
    simp only [decide_eq_true_eq] at this
    omega

/-- C8 witness: the theorem applied at concrete inputs — a string with 1-,
2-, 3- and 4-byte characters round-trips, and the raw byte 0xFF survives
`encodeMixed` unchanged. -/
theorem utf8_roundtrip_and_raw_bytes_witness :
    utf8Decode (utf8Encode "hé✓𝄞".toList) = "hé✓𝄞".toList ∧
    encodeMixed [Char.ofNat 0xFF] = [0xFF] := by
  have h := utf8_roundtrip_and_raw_bytes "hé✓𝄞".toList [Char.ofNat 0xFF] (by decide)
  exact ⟨h.1, h.2.trans (by decide)⟩

/-! ## C5 and C6: `handleGetopts` -/

/-- Reading back the key just written. -/
theorem envLookup_set_eq (env : Env) (k v : JStr) :
    envLookup (envSet env k v) k = some v := by
  simp [envSet, envLookup]

/-- Writing one key does not change another. -/
theorem envLookup_set_ne (k vn : JStr) (h : vn ≠ k) (env : Env) (v : JStr) :
    envLookup (envSet env k v) vn = envLookup env vn := by
  simp only [envSet, envLookup]
  rw [if_neg (fun e => h e.symm)]

/-- An invalid variable name differs from the three bookkeeping keys the
builtin writes (which are all valid identifiers). -/
theorem invalid_ne_keys (v : JStr) (h : isValidVarName v = false) :
    v ≠ optargKey ∧ v ≠ optindKey ∧ v ≠ charIndexKey := by
  refine ⟨?_, ?_, ?_⟩ <;> intro e <;> subst e <;> exact absurd h (by decide)

/-- `startsWithDash` on a nonempty list checks the head. -/
theorem startsWithDash_cons (c : Char) (t : JStr) :
    startsWithDash (c :: t) = (c == '-') := rfl

set_option maxRecDepth 16384 in
set_option maxHeartbeats 1600000 in
/-- The environment the builtin re-invokes itself with has char index 0. -/
theorem getoptsStep_again_charIndex (env : Env) (args : List JStr) (env2 : Env)
    (h : getoptsStep env args = .again env2) : getoptsCharIndex env2 = some 0 := by
  simp only [getoptsStep] at h
  repeat' split at h
  all_goals cases h
  unfold getoptsCharIndex
  unfold envGet
  rw [envLookup_set_eq]
  dsimp only
  decide

set_option maxRecDepth 16384 in
set_option maxHeartbeats 1600000 in
/-- With char index 0 the builtin never re-invokes itself: the current
argument starts with a dash and is neither `-` nor `--`, so it always has
an option character at index 1. -/
theorem getoptsStep_noRecursion (env : Env) (args : List JStr)
    (h0 : getoptsCharIndex env = some 0) (env2 : Env) :
    getoptsStep env args ≠ .again env2 := by
  intro h
  simp only [getoptsStep] at h
  repeat' split at h
  all_goals cases h
  rename_i hlen2 hgt xopt currentArg heqArg hne hdd xchar heqChar
  have hsi : getoptsStartIndex env = some 1 := by
    unfold getoptsStartIndex
    rw [if_pos h0]
  rw [hsi] at heqChar
  simp only [jsCharAt] at heqChar
  rw [if_neg (by omega : ¬ (1 : Int) < 0)] at heqChar
  have h1n : ((1 : Int)).toNat = 1 := rfl
  rw [h1n] at heqChar
  have hlen : currentArg.length ≤ 1 := List.getElem?_eq_none_iff.mp heqChar
  simp only [Bool.or_eq_true, decide_eq_true_eq, Bool.not_eq_true', not_or,
    Bool.not_eq_false] at hne
  obtain ⟨hne1, hdash⟩ := hne
  cases currentArg with
  | nil => simp [startsWithDash] at hdash
  | cons c t =>
      have hc : c = '-' := by
        have hsw := startsWithDash_cons c t
        rw [hsw] at hdash
        simpa using hdash
      subst hc
      have ht : t = [] := by
        simp only [List.length_cons] at hlen
        exact List.length_eq_zero.mp (by omega)
      subst ht
      exact hne1 rfl

/-- Fuel 2 computes `handleGetopts` exactly: any larger fuel agrees. -/
theorem handleGetoptsF_stable (f : Nat) (env : Env) (args : List JStr) :
    handleGetoptsF (f + 2) env args = handleGetopts env args := by
  unfold handleGetopts
  cases hs : getoptsStep env args with
  | done res => simp only [handleGetoptsF, hs]
  | again env2 =>
      simp only [handleGetoptsF, hs]
      cases hs2 : getoptsStep env2 args with
      | done res2 => simp only [handleGetoptsF, hs2]
      | again env3 =>
          exact absurd hs2
            (getoptsStep_noRecursion env2 args (getoptsStep_again_charIndex env args env2 hs) env3)


set_option maxRecDepth 16384 in
set_option maxHeartbeats 1600000 in
/-- With an invalid name operand, every pass of the builtin exits with
code 2 and leaves the binding of that name untouched (it only writes
`OPTARG`, `OPTIND` and the internal char index). -/
theorem getoptsStep_invalid_name (env : Env) (args : List JStr)
    (h2 : 2 ≤ args.length) (hinv : isValidVarName (getoptsVarName args) = false) :
    (∀ res, getoptsStep env args = .done res →
      res.2.exitCode = 2 ∧
      envLookup res.1 (getoptsVarName args) = envLookup env (getoptsVarName args)) ∧
    (∀ env2, getoptsStep env args = .again env2 →
      envLookup env2 (getoptsVarName args) = envLookup env (getoptsVarName args)) := by
  obtain ⟨k1, k2, k3⟩ := invalid_ne_keys _ hinv
  constructor
  · intro res hres
    simp only [getoptsStep, getoptsFinish, hinv, Bool.not_false, Bool.not_true,
      if_true, if_false] at hres
    repeat' split at hres
    all_goals first
      | exact absurd ‹false = true› (by decide)
      | omega
      | ((cases hres) <;>
          (refine ⟨rfl, ?_⟩
           simp only [envLookup_set_ne optargKey (getoptsVarName args) k1,
             envLookup_set_ne optindKey (getoptsVarName args) k2,
             envLookup_set_ne charIndexKey (getoptsVarName args) k3]))
  · intro env2 hres
    simp only [getoptsStep, hinv, Bool.not_false, Bool.not_true, if_true, if_false] at hres
    repeat' split at hres
    all_goals first
      | exact absurd ‹false = true› (by decide)
      | ((cases hres) <;>
          simp only [envLookup_set_ne optargKey (getoptsVarName args) k1,
            envLookup_set_ne optindKey (getoptsVarName args) k2,
            envLookup_set_ne charIndexKey (getoptsVarName args) k3])

/-- If there is a current argument, `OPTIND` is a number no greater than
the argument count. -/
theorem getoptsCurrentArg_some_not_past (env : Env) (args : List JStr) (a : JStr)
    (ha : getoptsCurrentArg env args = some a) :
    jsGtNat (getoptsOptind env) (getoptsArgsToProcess env args).length = false := by
  unfold getoptsCurrentArg at ha
  cases ho : getoptsOptind env with
  | none => rw [ho] at ha; simp [jsAdd, jsIndexList] at ha
  | some n =>
      rw [ho] at ha
      simp only [jsAdd, Option.map_some'] at ha
      simp only [jsIndexList] at ha
      split at ha
      · exact absurd ha (by simp)
      · have hlt := (List.getElem?_eq_some_iff.mp ha).1
        rename_i hk
        simp only [jsGtNat, decide_eq_false_iff_not]
        omega

set_option maxRecDepth 16384 in
set_option maxHeartbeats 1600000 in
/-- C5: a `getopts` invocation whose name operand is not a well-formed
identifier exits with code 2 and never assigns to that name (the final
environment binds it exactly as the initial one did); an invocation with
a valid name whose parsed option is in error — an option character absent
from the optstring, or an option requiring an argument with no argument
available — exits with code 0, not a nonzero code. -/
theorem handleGetopts_exit_codes (env : Env) (args : List JStr)
    (h2 : 2 ≤ args.length) :
    (isValidVarName (getoptsVarName args) = false →
      (handleGetopts env args).2.exitCode = 2 ∧
      envLookup (handleGetopts env args).1 (getoptsVarName args) =
        envLookup env (getoptsVarName args)) ∧
    (isValidVarName (getoptsVarName args) = true →
      ∀ a c, getoptsCurrentArg env args = some a →
        startsWithDash a = true → a ≠ ['-'] → a ≠ ['-', '-'] →
        jsCharAt a (getoptsStartIndex env) = some c →
        (jsIndexOf (getoptsActualOptstring args) c = none ∨
          (getoptsRequiresArg args c = true ∧
            jsLtNat (jsAdd (getoptsStartIndex env) 1) a.length = false ∧
            jsGeNat (getoptsOptind env) (getoptsArgsToProcess env args).length = true)) →
      (handleGetopts env args).2.exitCode = 0) := by
  constructor
  · intro hinv
    have hstep := getoptsStep_invalid_name env args h2 hinv
    unfold handleGetopts
    cases hs : getoptsStep env args with
    | done res =>
        have h := hstep.1 res hs
        simp only [handleGetoptsF, hs]
        exact h
    | again env2 =>
        have henv2 := hstep.2 env2 hs
        have hstep2 := getoptsStep_invalid_name env2 args h2 hinv
        simp only [handleGetoptsF, hs]
        cases hs2 : getoptsStep env2 args with
        | done res2 =>
            have h := hstep2.1 res2 hs2
            simp only [handleGetoptsF, hs2]
            exact ⟨h.1, h.2.trans henv2⟩
        | again env3 =>
            exact absurd hs2 (getoptsStep_noRecursion env2 args
              (getoptsStep_again_charIndex env args env2 hs) env3)
  · intro hval a c ha hdash hne1 hne2 hc herr
    have h2' : ¬ args.length < 2 := by omega
    have hgt := getoptsCurrentArg_some_not_past env args a ha
    have hcond1 : (decide (a = ['-']) || !startsWithDash a) = false := by
      rw [hdash]
      simp [hne1]
    unfold handleGetopts
    rcases herr with hidx | ⟨hreq, hltf, hget⟩
    · simp only [handleGetoptsF, getoptsStep, if_neg h2', hgt, ha, hcond1, if_neg hne2,
        hc, hidx, hval, Bool.not_true, Bool.not_false, Bool.false_eq_true, if_false, if_true]
    · cases hidx2 : jsIndexOf (getoptsActualOptstring args) c with
      | none =>
          simp only [getoptsRequiresArg, hidx2] at hreq
          exact absurd hreq (by decide)
      | some i =>
          simp only [getoptsRequiresArg, hidx2] at hreq
          simp only [handleGetoptsF, getoptsStep, if_neg h2', hgt, ha, hcond1, if_neg hne2,
            hc, hidx2, hreq, hltf, hget, hval, Bool.not_true, Bool.not_false,
            Bool.false_eq_true, if_false, if_true]

set_option maxRecDepth 16384 in
set_option maxHeartbeats 1600000 in
/-- C6 (amended): for a valid variable name other than the bookkeeping
variables `OPTARG`, `OPTIND` and `__GETOPTS_CHARINDEX` (which getopts
itself writes, so a name colliding with them is overwritten — see the
counterexample), an option character absent from the optstring exits 0
with no stdout and sets the named variable to `?`; in silent mode (the
optstring starts with `:`) nothing is written to stderr and `OPTARG` is
set to the offending character, while in non-silent mode `OPTARG` is left
cleared to the empty string and `bash: illegal option -- C` plus a
newline is written to stderr. -/
theorem handleGetopts_illegal_option_spec (env : Env) (args : List JStr) (a : JStr) (c : Char)
    (h2 : 2 ≤ args.length)
    (hval : isValidVarName (getoptsVarName args) = true)
    (hvn1 : getoptsVarName args ≠ optargKey)
    (hvn2 : getoptsVarName args ≠ optindKey)
    (hvn3 : getoptsVarName args ≠ charIndexKey)
    (ha : getoptsCurrentArg env args = some a)
    (hdash : startsWithDash a = true) (hne1 : a ≠ ['-']) (hne2 : a ≠ ['-', '-'])
    (hc : jsCharAt a (getoptsStartIndex env) = some c)
    (hidx : jsIndexOf (getoptsActualOptstring args) c = none) :
    (handleGetopts env args).2.exitCode = 0 ∧
    (handleGetopts env args).2.stdout = EMPTY ∧
    envLookup (handleGetopts env args).1 (getoptsVarName args) = some ['?'] ∧
    (getoptsSilentMode args = true →
      (handleGetopts env args).2.stderr = EMPTY ∧
      envLookup (handleGetopts env args).1 optargKey = some [c]) ∧
    (getoptsSilentMode args = false →
      (handleGetopts env args).2.stderr =
        utf8Encode ("bash: illegal option -- ".toList ++ [c] ++ ['\n']) ∧
      envLookup (handleGetopts env args).1 optargKey = some []) := by
  have h2' : ¬ args.length < 2 := by omega
  have hgt := getoptsCurrentArg_some_not_past env args a ha
  have hcond1 : (decide (a = ['-']) || !startsWithDash a) = false := by
    rw [hdash]
    simp [hne1]
  refine ⟨?_, ?_, ?_, fun hsil => ⟨?_, ?_⟩, fun hsil => ⟨?_, ?_⟩⟩ <;>
    unfold handleGetopts
  · simp only [handleGetoptsF, getoptsStep, if_neg h2', hgt, ha, hcond1, if_neg hne2,
      hc, hidx, hval, Bool.not_true, Bool.not_false, Bool.false_eq_true, if_false, if_true]
  · simp only [handleGetoptsF, getoptsStep, if_neg h2', hgt, ha, hcond1, if_neg hne2,
      hc, hidx, hval, Bool.not_true, Bool.not_false, Bool.false_eq_true, if_false, if_true]
  · cases hpos : jsLtNat (jsAdd (getoptsStartIndex env) 1) (List.length a) <;>
      cases hsil : getoptsSilentMode args <;>
      simp only [handleGetoptsF, getoptsStep, if_neg h2', hgt, ha, hcond1, if_neg hne2,
        hc, hidx, hval, hsil, hpos, Bool.not_true, Bool.not_false, Bool.false_eq_true,
        if_false, if_true,
        envLookup_set_ne charIndexKey (getoptsVarName args) hvn3,
        envLookup_set_ne optindKey (getoptsVarName args) hvn2,
        envLookup_set_eq]
  · cases hpos : jsLtNat (jsAdd (getoptsStartIndex env) 1) (List.length a) <;>
      simp only [handleGetoptsF, getoptsStep, if_neg h2', hgt, ha, hcond1, if_neg hne2,
        hc, hidx, hval, hsil, hpos, Bool.not_true, Bool.not_false, Bool.false_eq_true,
        if_false, if_true, EMPTY, utf8Encode, List.map_nil, List.flatten_nil]
  · cases hpos : jsLtNat (jsAdd (getoptsStartIndex env) 1) (List.length a) <;>
      simp only [handleGetoptsF, getoptsStep, if_neg h2', hgt, ha, hcond1, if_neg hne2,
        hc, hidx, hval, hsil, hpos, Bool.not_true, Bool.not_false, Bool.false_eq_true,
        if_false, if_true,
        envLookup_set_ne charIndexKey optargKey (by decide),
        envLookup_set_ne optindKey optargKey (by decide),
        envLookup_set_ne (getoptsVarName args) optargKey (Ne.symm hvn1),
        envLookup_set_eq]
  · cases hpos : jsLtNat (jsAdd (getoptsStartIndex env) 1) (List.length a) <;>
      simp only [handleGetoptsF, getoptsStep, if_neg h2', hgt, ha, hcond1, if_neg hne2,
        hc, hidx, hval, hsil, hpos, Bool.not_true, Bool.not_false, Bool.false_eq_true,
        if_false, if_true]
  · cases hpos : jsLtNat (jsAdd (getoptsStartIndex env) 1) (List.length a) <;>
      simp only [handleGetoptsF, getoptsStep, if_neg h2', hgt, ha, hcond1, if_neg hne2,
        hc, hidx, hval, hsil, hpos, Bool.not_true, Bool.not_false, Bool.false_eq_true,
        if_false, if_true,
        envLookup_set_ne charIndexKey optargKey (by decide),
        envLookup_set_ne optindKey optargKey (by decide),
        envLookup_set_ne (getoptsVarName args) optargKey (Ne.symm hvn1),
        envLookup_set_eq]

/-- C5 witness: the theorem applied at a concrete invocation
(`getopts ab x -z`): the unknown option `-z` still exits 0. -/
theorem handleGetopts_exit_codes_witness :
    (handleGetopts [] ["ab".toList, "x".toList, "-z".toList]).2.exitCode = 0 :=
  (handleGetopts_exit_codes [] ["ab".toList, "x".toList, "-z".toList] (by decide)).2
    (by decide) "-z".toList 'z' (by decide) (by decide) (by decide) (by decide) (by decide)
    (Or.inl (by decide))

/-- C6 (counterexample): with the valid variable name `OPTARG`
(`getopts ab OPTARG -z`, non-silent), the final `OPTARG` is `?`, not the
empty string the claim requires of non-silent mode: the claim as stated
fails when the name collides with a variable the builtin itself writes. -/
theorem handleGetopts_optarg_name_collision :
    envLookup (handleGetopts [] ["ab".toList, "OPTARG".toList, "-z".toList]).1 optargKey =
      some ['?'] ∧
    envLookup (handleGetopts [] ["ab".toList, "OPTARG".toList, "-z".toList]).1 optargKey ≠
      some [] :=
  ⟨by decide, by decide⟩

/-- C6 witness: the amended theorem applied at a concrete invocation
(`getopts ab optname -z`): the named variable becomes `?`. -/
theorem handleGetopts_illegal_option_spec_witness :
    envLookup (handleGetopts [] ["ab".toList, "optname".toList, "-z".toList]).1
      ("optname".toList) = some ['?'] := by
  have h := handleGetopts_illegal_option_spec [] ["ab".toList, "optname".toList, "-z".toList]
    "-z".toList 'z' (by decide) (by decide) (by decide) (by decide) (by decide) (by decide)
    (by decide) (by decide) (by decide) (by decide) (by decide)
  exact h.2.2.1


end JustBinary
